import Mathlib

/-!
# Verification of the mergin work-packages core

A shallow embedding, in Lean 4, of the core algorithms of the work-packages
tool (`workpackages/remapping.py`, `workpackages/wp.py`,
`workpackages/wp_utils.py`), together with theorems settling the behavioural
claims about the Remap Store, the Merge/Split Orchestrator prelude, the
Config Loader, the Schema Introspector and the Filter Executor.

Machine integers are modelled as `Int` (SQLite INTEGER is a signed 64-bit
value; no arithmetic here approaches overflow, and the source never relies
on wrap-around).  Fallible operations return `Except String` mirroring the
Python exceptions / SQLite errors.
-/

/-- Embedding of `wp_utils.escape_double_quotes`: wraps a raw identifier in
double quotes, doubling any embedded `"`. -/
def escape_double_quotes (name : String) : String :=
  "\"" ++ name.replace "\"" "\"\"" ++ "\""

/-- SQL aggregate `max(...)` over an integer column: `NULL` (`none`) when the
column is empty. -/
def sqlMax : List Int → Option Int
  | [] => none
  | x :: xs =>
    match sqlMax xs with
    | none => some x
    | some m => some (max x m)

/-! ## Remap Store (`workpackages/remapping.py`)

A remap relation `remap_T_W` is the table created by
`_create_remap_table_if_not_exists`:

    CREATE TABLE IF NOT EXISTS {remap_table} (
        master_fid INTEGER PRIMARY KEY, wp_fid INTEGER UNIQUE);

We model it as a list of `(master_fid, wp_fid)` pairs in insertion order.
The target geopackage table is modelled by the list of values of its
primary-key column (the only column the two remap operations read or write);
a primary-key column never holds duplicates.
-/

/-- The remap relation for one `(table, work package)` pair: rows
`(master_fid, wp_fid)` in insertion order. -/
abbrev RemapRel := List (Int × Int)

/-- The `master_fid` column of a remap relation. -/
def masterFids (r : RemapRel) : List Int := r.map Prod.fst

/-- The `wp_fid` column of a remap relation. -/
def wpFids (r : RemapRel) : List Int := r.map Prod.snd

/-- A single `INSERT INTO {remap_table} VALUES (?, ?)`, subject to the
table's declared constraints `master_fid INTEGER PRIMARY KEY` and
`wp_fid INTEGER UNIQUE`: SQLite refuses the insert (raising an error that
aborts the Python run) when either value is already present. -/
def remapInsert (r : RemapRel) (mfid wfid : Int) : Except String RemapRel :=
  if mfid ∈ masterFids r then .error "UNIQUE constraint failed: master_fid"
  else if wfid ∈ wpFids r then .error "UNIQUE constraint failed: wp_fid"
  else .ok (r ++ [(mfid, wfid)])

/-- `SELECT max(wp_fid) FROM {remap_table}` followed by the
`None -> 1000000 / m -> m + 1` branch of `remap_table_master_to_wp`
(remapping.py lines 71-76). -/
def next_wp_fid (r : RemapRel) : Int :=
  match sqlMax (wpFids r) with
  | none => 1000000
  | some m => m + 1

/-- Step 1 of `remap_table_master_to_wp`: the primary-key values of the
target table that have no mapping yet (`LEFT JOIN ... WHERE mapped.wp_fid IS
NULL`).  The Python code collects them into a `set`, whose iteration order
is unspecified; `dedup` fixes one order (the theorems below do not depend on
which), and on a real table the primary-key column has no duplicates anyway. -/
def missing_master_fids (table : List Int) (r : RemapRel) : List Int :=
  (table.filter (fun fid => decide (fid ∉ masterFids r))).dedup

/-- Step 1 of `remap_table_wp_to_master`: target-table primary keys with no
mapping yet (`LEFT JOIN ... WHERE mapped.master_fid IS NULL`). -/
def missing_wp_fids (table : List Int) (r : RemapRel) : List Int :=
  (table.filter (fun fid => decide (fid ∉ wpFids r))).dedup

/-- Step 2 of `remap_table_master_to_wp` (remapping.py lines 78-80): insert
`(master_fid, new_wp_fid)` for each missing master fid, incrementing
`new_wp_fid` by one after every insert. -/
def insertLoopM2W : RemapRel → List Int → Int → Except String RemapRel
  | r, [], _ => .ok r
  | r, mfid :: rest, next =>
    match remapInsert r mfid next with
    | .error e => .error e
    | .ok r2 => insertLoopM2W r2 rest (next + 1)

/-- Step 2 of `remap_table_wp_to_master` (remapping.py lines 126-128): insert
`(new_master_fid, wp_fid)` for each missing wp fid, incrementing
`new_master_fid` by one after every insert. -/
def insertLoopW2M : RemapRel → List Int → Int → Except String RemapRel
  | r, [], _ => .ok r
  | r, wfid :: rest, nm =>
    match remapInsert r nm wfid with
    | .error e => .error e
    | .ok r2 => insertLoopW2M r2 rest (nm + 1)

/-- The `mapped.wp_fid` value the `LEFT JOIN` of step 3 pairs with a row
whose primary key is `mfid` (`NULL` when unmapped). -/
def lookupWpFid (r : RemapRel) (mfid : Int) : Option Int :=
  (r.find? (fun p => p.1 == mfid)).map Prod.snd

/-- The `mapped.master_fid` value the `LEFT JOIN` of step 3 of
`remap_table_wp_to_master` pairs with a row whose primary key is `wfid`. -/
def lookupMasterFid (r : RemapRel) (wfid : Int) : Option Int :=
  (r.find? (fun p => p.2 == wfid)).map Prod.fst

/-- Embedding of `remapping.remap_table_master_to_wp` acting on the
primary-key column of the target table and on the remap relation.  Step 3's
two-phase rewrite (negate all keys, then update each `-master_fid` to its
mapped `wp_fid`) replaces every row's key by its mapped value; a key is
`none` (SQL `NULL`) in the unreachable case that a row is still unmapped. -/
def remap_table_master_to_wp (table : List Int) (r : RemapRel) :
    Except String (List (Option Int) × RemapRel) :=
  match insertLoopM2W r (missing_master_fids table r) (next_wp_fid r) with
  | .error e => .error e
  | .ok r2 => .ok (table.map (lookupWpFid r2), r2)

/-- Embedding of `remapping.remap_table_wp_to_master` (the symmetric
operation; the first unused master fid is supplied by the caller). -/
def remap_table_wp_to_master (table : List Int) (r : RemapRel)
    (new_master_fid : Int) : Except String (List (Option Int) × RemapRel) :=
  match insertLoopW2M r (missing_wp_fids table r) new_master_fid with
  | .error e => .error e
  | .ok r2 => .ok (table.map (lookupMasterFid r2), r2)

/-- The pairs `(m_0, next), (m_1, next+1), ...` that one run of the step-2
insert loop of `remap_table_master_to_wp` appends: consecutive wp fids,
increasing by exactly one per inserted entry. -/
def seqPairs : List Int → Int → List (Int × Int)
  | [], _ => []
  | mfid :: rest, next => (mfid, next) :: seqPairs rest (next + 1)

/-- The remap relation is a bijection: no master fid occurs twice and no
wp fid occurs twice (each entry pairs exactly one master id with exactly one
WP-local id by construction). -/
def RemapBijective (r : RemapRel) : Prop :=
  (masterFids r).Nodup ∧ (wpFids r).Nodup

/-- One call made against a remap relation during a run: Stage 2 calls
`remap_table_master_to_wp`, Stage 1 calls `remap_table_wp_to_master`. -/
inductive RemapOp where
  | masterToWp (table : List Int)
  | wpToMaster (table : List Int) (new_master_fid : Int)

/-- Effect of one call on the remap relation. -/
def applyRemapOp (r : RemapRel) : RemapOp → Except String RemapRel
  | .masterToWp t =>
    match remap_table_master_to_wp t r with
    | .error e => .error e
    | .ok p => .ok p.2
  | .wpToMaster t nm =>
    match remap_table_wp_to_master t r nm with
    | .error e => .error e
    | .ok p => .ok p.2

/-- A sequence of remap calls (any interleaving, any runs). -/
def runRemapOps : RemapRel → List RemapOp → Except String RemapRel
  | r, [] => .ok r
  | r, op :: rest =>
    match applyRemapOp r op with
    | .error e => .error e
    | .ok r2 => runRemapOps r2 rest

/-! ### Basic lemmas about the Remap Store model -/

theorem sqlMax_le : ∀ {l : List Int} {x m : Int}, x ∈ l → sqlMax l = some m → x ≤ m
  | a :: t, x, m, hx, hm => by
    simp only [sqlMax] at hm
    rcases List.mem_cons.mp hx with h | h
    · subst h
      cases ht : sqlMax t with
      | none => rw [ht] at hm; injection hm with hm; omega
      | some k => rw [ht] at hm; injection hm with hm; subst hm; exact le_max_left _ _
    · cases ht : sqlMax t with
      | none =>
        cases t with
        | nil => cases h
        | cons b u =>
          simp only [sqlMax] at ht
          revert ht; split <;> intro ht <;> cases ht
      | some k =>
        rw [ht] at hm; injection hm with hm; subst hm
        exact le_trans (sqlMax_le h ht) (le_max_right _ _)

theorem next_wp_fid_gt {r : RemapRel} : ∀ w ∈ wpFids r, w < next_wp_fid r := by
  intro w hw
  unfold next_wp_fid
  cases hm : sqlMax (wpFids r) with
  | none =>
    cases hr : wpFids r with
    | nil => rw [hr] at hw; cases hw
    | cons a t =>
      rw [hr] at hm
      simp only [sqlMax] at hm
      revert hm; split <;> intro hm <;> cases hm
  | some m =>
    have := sqlMax_le hw hm
    show w < m + 1
    omega

theorem remapInsert_ok {r r2 : RemapRel} {mfid wfid : Int}
    (h : remapInsert r mfid wfid = .ok r2) :
    r2 = r ++ [(mfid, wfid)] ∧ mfid ∉ masterFids r ∧ wfid ∉ wpFids r := by
  by_cases h1 : mfid ∈ masterFids r
  · simp [remapInsert, h1] at h
  · by_cases h2 : wfid ∈ wpFids r
    · simp [remapInsert, h1, h2] at h
    · simp [remapInsert, h1, h2] at h
      exact ⟨h.symm, h1, h2⟩

theorem remapInsert_fresh {r : RemapRel} {mfid wfid : Int}
    (h1 : mfid ∉ masterFids r) (h2 : wfid ∉ wpFids r) :
    remapInsert r mfid wfid = .ok (r ++ [(mfid, wfid)]) := by
  simp [remapInsert, h1, h2]

theorem masterFids_append (r s : RemapRel) :
    masterFids (r ++ s) = masterFids r ++ masterFids s := by
  simp [masterFids]

theorem wpFids_append (r s : RemapRel) :
    wpFids (r ++ s) = wpFids r ++ wpFids s := by
  simp [wpFids]

theorem missing_master_fids_nodup (table : List Int) (r : RemapRel) :
    (missing_master_fids table r).Nodup :=
  List.nodup_dedup _

theorem missing_master_fids_not_mapped {table : List Int} {r : RemapRel} :
    ∀ m ∈ missing_master_fids table r, m ∉ masterFids r := by
  intro m hm
  have := List.mem_dedup.mp hm
  have := List.mem_filter.mp this
  simpa using this.2

theorem insertLoopM2W_eq : ∀ (ms : List Int) (r : RemapRel) (next : Int),
    ms.Nodup → (∀ m ∈ ms, m ∉ masterFids r) → (∀ w ∈ wpFids r, w < next) →
    insertLoopM2W r ms next = .ok (r ++ seqPairs ms next)
  | [], r, next, _, _, _ => by simp [insertLoopM2W, seqPairs]
  | mfid :: rest, r, next, hnd, hdis, hlt => by
    have h1 : mfid ∉ masterFids r := hdis mfid (List.mem_cons_self _ _)
    have h2 : next ∉ wpFids r := fun hc => lt_irrefl next (hlt next hc)
    have hnd' := List.nodup_cons.mp hnd
    have step : insertLoopM2W r (mfid :: rest) next
        = insertLoopM2W (r ++ [(mfid, next)]) rest (next + 1) := by
      simp only [insertLoopM2W, remapInsert_fresh h1 h2]
    rw [step, insertLoopM2W_eq rest (r ++ [(mfid, next)]) (next + 1) hnd'.2 ?_ ?_]
    · simp [seqPairs]
    · intro m hm
      rw [masterFids_append]
      intro hc
      rcases List.mem_append.mp hc with hc | hc
      · exact hdis m (List.mem_cons_of_mem _ hm) hc
      · simp only [masterFids, List.map_cons, List.map_nil, List.mem_singleton] at hc
        exact hnd'.1 (hc ▸ hm)
    · intro w hw
      rw [wpFids_append] at hw
      rcases List.mem_append.mp hw with hw | hw
      · exact lt_trans (hlt w hw) (by omega)
      · simp only [wpFids, List.map_cons, List.map_nil, List.mem_singleton] at hw
        omega

theorem seqPairs_map_fst : ∀ (ms : List Int) (next : Int),
    (seqPairs ms next).map Prod.fst = ms
  | [], _ => rfl
  | mfid :: rest, next => by
    simp [seqPairs, seqPairs_map_fst rest (next + 1)]

theorem seqPairs_get_snd : ∀ (ms : List Int) (next : Int) (i : Nat)
    (hi : i < (seqPairs ms next).length),
    ((seqPairs ms next).get ⟨i, hi⟩).2 = next + (i : Int)
  | [], _, i, hi => by simp [seqPairs] at hi
  | mfid :: rest, next, 0, hi => by simp [seqPairs]
  | mfid :: rest, next, i + 1, hi => by
    have hi' : i < (seqPairs rest (next + 1)).length := by
      simpa [seqPairs] using hi
    have ih := seqPairs_get_snd rest (next + 1) i hi'
    show ((seqPairs rest (next + 1)).get ⟨i, hi'⟩).2 = next + ((i : Int) + 1)
    rw [ih]
    ring

theorem seqPairs_snd_ge : ∀ (ms : List Int) (next : Int) (p : Int × Int),
    p ∈ seqPairs ms next → next ≤ p.2
  | [], _, p, hp => by cases hp
  | mfid :: rest, next, p, hp => by
    rcases List.mem_cons.mp hp with h | h
    · subst h; exact le_refl _
    · have := seqPairs_snd_ge rest (next + 1) p h; omega

/-- C4. In each call to `remap_table_master_to_wp`, the WP-local ids assigned
to not-yet-mapped master ids start at `max(wp_fid) + 1` over the remap
relation (at `1000000` when the relation is empty) and increase by exactly
one per inserted entry; every newly assigned wp fid is strictly greater than
every wp fid already in the relation, so across runs assigned WP-local ids
never decrease and a value once assigned is never reused. -/
theorem remap_master_to_wp_assigns_sequentially
    (table : List Int) (r : RemapRel) (t2 : List (Option Int)) (r2 : RemapRel)
    (h : remap_table_master_to_wp table r = .ok (t2, r2)) :
    r2 = r ++ seqPairs (missing_master_fids table r) (next_wp_fid r)
    ∧ (wpFids r = [] → next_wp_fid r = 1000000)
    ∧ (∀ i (hi : i < (seqPairs (missing_master_fids table r)
          (next_wp_fid r)).length),
        ((seqPairs (missing_master_fids table r) (next_wp_fid r)).get
            ⟨i, hi⟩).2 = next_wp_fid r + (i : Int))
    ∧ (∀ p ∈ seqPairs (missing_master_fids table r) (next_wp_fid r),
        ∀ w ∈ wpFids r, w < p.2) := by
  have hloop := insertLoopM2W_eq (missing_master_fids table r) r (next_wp_fid r)
    (missing_master_fids_nodup table r) missing_master_fids_not_mapped
    next_wp_fid_gt
  unfold remap_table_master_to_wp at h
  rw [hloop] at h
  injection h with h
  have h2 := congrArg Prod.snd h
  simp only at h2
  refine ⟨h2.symm, ?_, seqPairs_get_snd _ _, ?_⟩
  · intro hr; unfold next_wp_fid; rw [hr]; rfl
  · intro p hp w hw
    exact lt_of_lt_of_le (next_wp_fid_gt w hw) (seqPairs_snd_ge _ _ _ hp)

/-- Witness for C4: a concrete run, starting from a relation whose largest
assigned wp fid is 1000000, assigns 1000001 and 1000002 to the two unmapped
master fids. -/
theorem remap_master_to_wp_assigns_sequentially_witness :
    ([(5, 1000000), (1, 1000001), (2, 1000002)] : RemapRel)
      = [(5, 1000000)] ++ seqPairs (missing_master_fids [1, 2] [(5, 1000000)])
          (next_wp_fid [(5, 1000000)]) :=
  (remap_master_to_wp_assigns_sequentially [1, 2] [(5, 1000000)]
    [some 1000001, some 1000002] [(5, 1000000), (1, 1000001), (2, 1000002)]
    (by rfl)).1

/-! ### C9: the remap operations never delete or modify an entry -/

theorem insertLoopM2W_extends : ∀ (ms : List Int) (r : RemapRel) (next : Int)
    (r2 : RemapRel), insertLoopM2W r ms next = .ok r2 → ∃ ext, r2 = r ++ ext
  | [], r, _, r2, h => by
    simp only [insertLoopM2W] at h
    injection h with h
    exact ⟨[], by simp [h]⟩
  | mfid :: rest, r, next, r2, h => by
    simp only [insertLoopM2W] at h
    split at h
    · cases h
    · rename_i rmid hi
      obtain ⟨hmid, -, -⟩ := remapInsert_ok hi
      obtain ⟨ext, hext⟩ := insertLoopM2W_extends rest rmid (next + 1) r2 h
      exact ⟨(mfid, next) :: ext, by rw [hext, hmid]; simp⟩

theorem insertLoopW2M_extends : ∀ (ws : List Int) (r : RemapRel) (nm : Int)
    (r2 : RemapRel), insertLoopW2M r ws nm = .ok r2 → ∃ ext, r2 = r ++ ext
  | [], r, _, r2, h => by
    simp only [insertLoopW2M] at h
    injection h with h
    exact ⟨[], by simp [h]⟩
  | wfid :: rest, r, nm, r2, h => by
    simp only [insertLoopW2M] at h
    split at h
    · cases h
    · rename_i rmid hi
      obtain ⟨hmid, -, -⟩ := remapInsert_ok hi
      obtain ⟨ext, hext⟩ := insertLoopW2M_extends rest rmid (nm + 1) r2 h
      exact ⟨(nm, wfid) :: ext, by rw [hext, hmid]; simp⟩

/-- C9. Neither `remap_table_master_to_wp` nor `remap_table_wp_to_master`
deletes or modifies an existing entry of the remap relation: on success the
new relation is the old one extended at its end, and every pair present
before the call is present unchanged afterwards (only the target table's
primary-key column is rewritten besides). -/
theorem remap_ops_never_delete (table : List Int) (r : RemapRel) (nm : Int) :
    (∀ t2 r2, remap_table_master_to_wp table r = .ok (t2, r2) →
      (∃ ext, r2 = r ++ ext) ∧ ∀ p ∈ r, p ∈ r2) ∧
    (∀ t2 r2, remap_table_wp_to_master table r nm = .ok (t2, r2) →
      (∃ ext, r2 = r ++ ext) ∧ ∀ p ∈ r, p ∈ r2) := by
  constructor
  · intro t2 r2 h
    unfold remap_table_master_to_wp at h
    split at h
    · cases h
    · rename_i rmid hloop
      injection h with h
      have hr2 : r2 = rmid := (congrArg Prod.snd h).symm
      subst hr2
      obtain ⟨ext, hext⟩ := insertLoopM2W_extends _ _ _ _ hloop
      exact ⟨⟨ext, hext⟩, fun p hp => by rw [hext]; exact List.mem_append_left _ hp⟩
  · intro t2 r2 h
    unfold remap_table_wp_to_master at h
    split at h
    · cases h
    · rename_i rmid hloop
      injection h with h
      have hr2 : r2 = rmid := (congrArg Prod.snd h).symm
      subst hr2
      obtain ⟨ext, hext⟩ := insertLoopW2M_extends _ _ _ _ hloop
      exact ⟨⟨ext, hext⟩, fun p hp => by rw [hext]; exact List.mem_append_left _ hp⟩

/-- Witness for C9: a concrete `remap_table_wp_to_master` call that inserts a
new entry keeps the pre-existing entry `(5, 7)` untouched. -/
theorem remap_ops_never_delete_witness :
    (∃ ext, ([(5, 7), (1, 5)] : RemapRel) = [(5, 7)] ++ ext) ∧
      ∀ p ∈ ([(5, 7)] : RemapRel), p ∈ ([(5, 7), (1, 5)] : RemapRel) :=
  (remap_ops_never_delete [7, 5] [(5, 7)] 1).2 [some 5, some 1]
    [(5, 7), (1, 5)] (by rfl)

/-! ### C1: the remap relation stays a bijection under any call sequence -/

theorem remapInsert_bij {r r2 : RemapRel} {mfid wfid : Int}
    (hb : RemapBijective r) (h : remapInsert r mfid wfid = .ok r2) :
    RemapBijective r2 := by
  obtain ⟨he, h1, h2⟩ := remapInsert_ok h
  subst he
  constructor
  · rw [masterFids_append]
    refine List.Nodup.append hb.1 (List.nodup_singleton _) ?_
    intro a ha ha'
    simp only [masterFids, List.map_cons, List.map_nil, List.mem_singleton] at ha'
    exact h1 (ha' ▸ ha)
  · rw [wpFids_append]
    refine List.Nodup.append hb.2 (List.nodup_singleton _) ?_
    intro a ha ha'
    simp only [wpFids, List.map_cons, List.map_nil, List.mem_singleton] at ha'
    exact h2 (ha' ▸ ha)

theorem insertLoopM2W_bij : ∀ (ms : List Int) (r : RemapRel) (next : Int)
    (r2 : RemapRel), RemapBijective r → insertLoopM2W r ms next = .ok r2 →
    RemapBijective r2
  | [], r, _, r2, hb, h => by
    simp only [insertLoopM2W] at h
    injection h with h
    exact h ▸ hb
  | mfid :: rest, r, next, r2, hb, h => by
    simp only [insertLoopM2W] at h
    split at h
    · cases h
    · rename_i rmid hi
      exact insertLoopM2W_bij rest rmid (next + 1) r2 (remapInsert_bij hb hi) h

theorem insertLoopW2M_bij : ∀ (ws : List Int) (r : RemapRel) (nm : Int)
    (r2 : RemapRel), RemapBijective r → insertLoopW2M r ws nm = .ok r2 →
    RemapBijective r2
  | [], r, _, r2, hb, h => by
    simp only [insertLoopW2M] at h
    injection h with h
    exact h ▸ hb
  | wfid :: rest, r, nm, r2, hb, h => by
    simp only [insertLoopW2M] at h
    split at h
    · cases h
    · rename_i rmid hi
      exact insertLoopW2M_bij rest rmid (nm + 1) r2 (remapInsert_bij hb hi) h

theorem applyRemapOp_bij {r r2 : RemapRel} {op : RemapOp}
    (hb : RemapBijective r) (h : applyRemapOp r op = .ok r2) :
    RemapBijective r2 := by
  cases op with
  | masterToWp t =>
    simp only [applyRemapOp] at h
    split at h
    · cases h
    · rename_i p hp
      injection h with h
      subst h
      unfold remap_table_master_to_wp at hp
      split at hp
      · cases hp
      · rename_i rmid hloop
        have : p.2 = rmid := congrArg Prod.snd (Except.ok.inj hp).symm
        exact this ▸ insertLoopM2W_bij _ _ _ _ hb hloop
  | wpToMaster t nm =>
    simp only [applyRemapOp] at h
    split at h
    · cases h
    · rename_i p hp
      injection h with h
      subst h
      unfold remap_table_wp_to_master at hp
      split at hp
      · cases hp
      · rename_i rmid hloop
        have : p.2 = rmid := congrArg Prod.snd (Except.ok.inj hp).symm
        exact this ▸ insertLoopW2M_bij _ _ _ _ hb hloop

theorem runRemapOps_bij : ∀ (ops : List RemapOp) (r r2 : RemapRel),
    RemapBijective r → runRemapOps r ops = .ok r2 → RemapBijective r2
  | [], r, r2, hb, h => by
    simp only [runRemapOps] at h
    injection h with h
    exact h ▸ hb
  | op :: rest, r, r2, hb, h => by
    simp only [runRemapOps] at h
    split at h
    · cases h
    · rename_i rmid hi
      exact runRemapOps_bij rest rmid r2 (applyRemapOp_bij hb hi) h

/-- C1. After any sequence of `remap_table_master_to_wp` /
`remap_table_wp_to_master` calls on an initially empty remap relation (hence
after any run), the relation is a bijection: no two entries share a
`master_fid`, no two entries share a `wp_fid`, and each entry pairs exactly
one master id with exactly one WP-local id. -/
theorem remap_store_bijection_after_any_run (ops : List RemapOp)
    (r2 : RemapRel) (h : runRemapOps [] ops = .ok r2) : RemapBijective r2 :=
  runRemapOps_bij ops [] r2 ⟨List.nodup_nil, List.nodup_nil⟩ h

/-- Witness for C1: a master-to-wp call followed by a wp-to-master call on a
fresh relation yields a bijective relation. -/
theorem remap_store_bijection_after_any_run_witness :
    RemapBijective [(1, 1000000), (2, 1000001), (3, 500)] :=
  remap_store_bijection_after_any_run
    [RemapOp.masterToWp [1, 2], RemapOp.wpToMaster [1000000, 500] 3]
    [(1, 1000000), (2, 1000001), (3, 500)] (by rfl)

/-! ## Merge/Split Orchestrator prelude (`workpackages/wp.py`, `make_work_packages`)

The prelude purges and recreates `output/` and `tmp/`, scans `base/` for
previously-known work packages, copies `input/master.gpkg` to
`output/master.gpkg`, and only then checks the workspace invariant on
`base/remap.db` (wp.py lines 113-173).
-/

/-- Python's `filename.endswith(pat)` over the character representation. -/
def strEndsWith (s pat : String) : Bool :=
  s.data.reverse.take pat.data.length == pat.data.reverse

/-- Python's `filename[:-n]`: drop the last `n` characters. -/
def strDropRight (s : String) (n : Nat) : String :=
  String.mk (s.data.take (s.data.length - n))

/-- Classification of one `base/` directory entry by the `old_wp_names` scan
(wp.py lines 129-136): `master.gpkg` is skipped, any other name ending in
`.gpkg` contributes its stem (`filename[:-5]`), everything else is skipped. -/
def wpStem (filename : String) : Option String :=
  if filename = "master.gpkg" then none
  else if strEndsWith filename ".gpkg" then some (strDropRight filename 5)
  else none

/-- The `old_wp_names` accumulation loop of `make_work_packages`: one pass
over the names yielded by `Path(base_dir).iterdir()`, appending each
work-package stem in encounter order.  No sorting is applied; the Stage 1
loop (wp.py line 177) then processes the names in exactly this list order. -/
def old_wp_names : List String → List String
  | [] => []
  | f :: rest =>
    match wpStem f with
    | some s => s :: old_wp_names rest
    | none => old_wp_names rest

/-- Filesystem mutations performed by the prelude of `make_work_packages`
up to (and including) the copy of `base/remap.db`. -/
inductive FsEff where
  | rmtreeOutputDir
  | makedirsOutputDir
  | rmtreeTmpDir
  | makedirsTmpDir
  | geodiffMasterBaseInput
  | copyMasterInputToOutput
  | copyRemapBaseToOutput
deriving DecidableEq

/-- The workspace state the prelude consults: whether `output/` and `tmp/`
exist, whether `base/` exists, and the names present in `base/`.
(`input/master.gpkg` is assumed present: its absence aborts the copy with an
I/O error unrelated to the workspace-invariant check modelled here.) -/
structure Workspace where
  output_exists : Bool
  tmp_exists : Bool
  base_exists : Bool
  base_listing : List String

/-- `os.path.exists(base/master.gpkg)`. -/
def master_gpkg_in_base (ws : Workspace) : Bool :=
  ws.base_exists && ws.base_listing.contains "master.gpkg"

/-- `os.path.exists(base/remap.db)`. -/
def remap_db_in_base (ws : Workspace) : Bool :=
  ws.base_exists && ws.base_listing.contains "remap.db"

/-- The `old_wp_names` list of a run (empty when `base/` does not exist). -/
def ws_old_wp_names (ws : Workspace) : List String :=
  if ws.base_exists then old_wp_names ws.base_listing else []

/-- The two `ValueError`s of the workspace-invariant check (wp.py lines
168-171); the specification names this failure `WorkspaceInvariant`. -/
inductive WorkspaceInvariantError where
  | remapDbMissing
  | remapDbUnexpected
deriving DecidableEq

/-- Mutations performed before the workspace-invariant check, in program
order (wp.py lines 118-163): purge/recreate `output/`, purge/recreate
`tmp/`, the diagnostic geodiff changeset into `tmp/` when
`base/master.gpkg` exists, and the copy of `input/master.gpkg` to
`output/master.gpkg`. -/
def prelude_effs (ws : Workspace) : List FsEff :=
  (if ws.output_exists then [FsEff.rmtreeOutputDir] else [])
    ++ [FsEff.makedirsOutputDir]
    ++ (if ws.tmp_exists then [FsEff.rmtreeTmpDir] else [])
    ++ [FsEff.makedirsTmpDir]
    ++ (if master_gpkg_in_base ws then [FsEff.geodiffMasterBaseInput] else [])
    ++ [FsEff.copyMasterInputToOutput]

/-- The prelude of `make_work_packages` as a trace of filesystem effects
together with the outcome of the workspace-invariant check: a raise stops
the run before `base/remap.db` is copied (wp.py lines 113-173). -/
def make_work_packages_prelude (ws : Workspace) :
    List FsEff × Option WorkspaceInvariantError :=
  if ws_old_wp_names ws ≠ [] ∧ remap_db_in_base ws = false then
    (prelude_effs ws, some .remapDbMissing)
  else if ws_old_wp_names ws = [] ∧ remap_db_in_base ws = true then
    (prelude_effs ws, some .remapDbUnexpected)
  else
    (prelude_effs ws
        ++ (if remap_db_in_base ws then [FsEff.copyRemapBaseToOutput] else []),
      none)

/-! ### C2: Stage 1 iteration order -/

/-- C2 counterexample.  The Stage 1 order is not sorted and not a function of
the set of files alone: two listings of the same two files (as a directory
iterator may yield them in either order) produce different `old_wp_names`
orders, and the first of them is not lexicographically sorted. -/
theorem stage1_scan_order_counterexample :
    old_wp_names ["b.gpkg", "a.gpkg"] = ["b", "a"]
    ∧ old_wp_names ["a.gpkg", "b.gpkg"] = ["a", "b"]
    ∧ (["b.gpkg", "a.gpkg"] : List String).Perm ["a.gpkg", "b.gpkg"]
    ∧ old_wp_names ["b.gpkg", "a.gpkg"] ≠ old_wp_names ["a.gpkg", "b.gpkg"]
    ∧ ¬ List.Sorted (fun a b : String => a < b) (old_wp_names ["b.gpkg", "a.gpkg"]) := by
  have h1 : old_wp_names ["b.gpkg", "a.gpkg"] = ["b", "a"] := by rfl
  have h2 : old_wp_names ["a.gpkg", "b.gpkg"] = ["a", "b"] := by rfl
  refine ⟨h1, h2, List.Perm.swap _ _ _, by rw [h1, h2]; decide, ?_⟩
  rw [h1]
  intro h
  have hba : ("b" : String) < "a" := List.rel_of_sorted_cons h "a" (by simp)
  have hdata := String.lt_iff_toList_lt.mp hba
  rw [show "b".toList = ['b'] from rfl, show "a".toList = ['a'] from rfl] at hdata
  cases hdata with
  | rel hc => exact absurd hc (by decide)

/-- C2 (amended).  Stage 1 processes previously-known work packages in
exactly the order the `base/` directory iterator yields their files: the
scan is an order-preserving filter-map of the listing (skip `master.gpkg`
and non-`.gpkg` names, strip the `.gpkg` suffix), with no sorting applied. -/
theorem stage1_scan_order_is_iteration_order (listing : List String) :
    old_wp_names listing = listing.filterMap wpStem := by
  induction listing with
  | nil => rfl
  | cons f rest ih =>
    cases h : wpStem f with
    | none => simp [old_wp_names, List.filterMap_cons, h, ih]
    | some s => simp [old_wp_names, List.filterMap_cons, h, ih]

/-! ### C5: the workspace-invariant check -/

theorem copyMaster_mem_prelude_effs (ws : Workspace) :
    FsEff.copyMasterInputToOutput ∈ prelude_effs ws := by
  unfold prelude_effs
  split <;> split <;> split <;> simp

theorem makedirsOutput_mem_prelude_effs (ws : Workspace) :
    FsEff.makedirsOutputDir ∈ prelude_effs ws := by
  unfold prelude_effs
  split <;> split <;> split <;> simp

theorem makedirsTmp_mem_prelude_effs (ws : Workspace) :
    FsEff.makedirsTmpDir ∈ prelude_effs ws := by
  unfold prelude_effs
  split <;> split <;> split <;> simp

theorem copyRemap_not_mem_prelude_effs (ws : Workspace) :
    FsEff.copyRemapBaseToOutput ∉ prelude_effs ws := by
  unfold prelude_effs
  split <;> split <;> split <;> simp

/-- C5 counterexample.  On a workspace whose `base/` holds a work-package
file but no `remap.db`, the run does raise the workspace-invariant error —
but only after `output/` and `tmp/` have been created and
`input/master.gpkg` has been copied to `output/master.gpkg`: the effect
trace at the raise is not empty, refuting "the error is raised before any
mutation of the workspace". -/
theorem workspace_invariant_after_mutation_counterexample :
    (make_work_packages_prelude ⟨false, false, true, ["a.gpkg"]⟩).2
        = some WorkspaceInvariantError.remapDbMissing
    ∧ (make_work_packages_prelude ⟨false, false, true, ["a.gpkg"]⟩).1
        = [FsEff.makedirsOutputDir, FsEff.makedirsTmpDir,
           FsEff.copyMasterInputToOutput] := by
  constructor <;> rfl

/-- C5 (amended).  `make_work_packages` raises the workspace-invariant error
exactly when `base/` contains work-package `.gpkg` files but no `remap.db`,
or contains `remap.db` but no work-package `.gpkg` files; when it raises,
the purge/recreation of `output/` and `tmp/` and the copy of
`input/master.gpkg` have already happened, while `base/remap.db` has not
been copied (and Stage 1 has not begun). -/
theorem workspace_invariant_check (ws : Workspace) :
    ((make_work_packages_prelude ws).2.isSome = true
      ↔ ((ws_old_wp_names ws ≠ [] ∧ remap_db_in_base ws = false)
          ∨ (ws_old_wp_names ws = [] ∧ remap_db_in_base ws = true)))
    ∧ ((make_work_packages_prelude ws).2.isSome = true →
        FsEff.copyMasterInputToOutput ∈ (make_work_packages_prelude ws).1
        ∧ FsEff.makedirsOutputDir ∈ (make_work_packages_prelude ws).1
        ∧ FsEff.makedirsTmpDir ∈ (make_work_packages_prelude ws).1
        ∧ FsEff.copyRemapBaseToOutput ∉ (make_work_packages_prelude ws).1) := by
  by_cases h1 : ws_old_wp_names ws ≠ [] ∧ remap_db_in_base ws = false
  · rw [make_work_packages_prelude, if_pos h1]
    exact ⟨by simp [h1], fun _ =>
      ⟨copyMaster_mem_prelude_effs ws, makedirsOutput_mem_prelude_effs ws,
        makedirsTmp_mem_prelude_effs ws, copyRemap_not_mem_prelude_effs ws⟩⟩
  · by_cases h2 : ws_old_wp_names ws = [] ∧ remap_db_in_base ws = true
    · rw [make_work_packages_prelude, if_neg h1, if_pos h2]
      exact ⟨by simp [h2], fun _ =>
        ⟨copyMaster_mem_prelude_effs ws, makedirsOutput_mem_prelude_effs ws,
          makedirsTmp_mem_prelude_effs ws, copyRemap_not_mem_prelude_effs ws⟩⟩
    · rw [make_work_packages_prelude, if_neg h1, if_neg h2]
      constructor
      · simp only [Option.isSome_none]
        constructor
        · intro h; cases h
        · intro h; rcases h with h | h
          · exact absurd h h1
          · exact absurd h h2
      · intro h; cases h

/-- Witness for C5 (amended): on the malformed workspace from the
counterexample the error is reported and `input/master.gpkg` has been
copied. -/
theorem workspace_invariant_check_witness :
    FsEff.copyMasterInputToOutput
      ∈ (make_work_packages_prelude ⟨false, false, true, ["a.gpkg"]⟩).1 :=
  ((workspace_invariant_check ⟨false, false, true, ["a.gpkg"]⟩).2 (by rfl)).1

/-! ## C3: the orchestrator's first-unused-master-id computation

Before remapping a work package back to master ids, `make_work_packages`
computes, per configured table, the value handed to
`remap_table_wp_to_master` (wp.py lines 181-193).  The SQL it runs is
`SELECT max(fid) FROM {table}` — with the literal column name `fid`, not the
primary-key column reported by the introspector.
-/

/-- A master-database table as the orchestrator sees it: its declared
columns, the primary-key column name the introspector reports, and its rows
(a row assigns integer values to some columns; a column absent from a row
holds SQL `NULL`). -/
structure MasterTable where
  cols : List String
  pkey : String
  rows : List (List (String × Int))

/-- `SELECT max(c) FROM t`: a SQL error when `c` is not a column of `t`
(aborting the run), otherwise the `max` aggregate over the non-NULL values
of `c`. -/
def selectMaxColumn (t : MasterTable) (c : String) : Except String (Option Int) :=
  if t.cols.contains c then
    .ok (sqlMax (t.rows.filterMap (fun row => row.lookup c)))
  else .error ("no such column: " ++ c)

/-- wp.py lines 185-193: `SELECT max(fid) FROM {table}` with the literal
column name `fid`, then `None -> 1 / m -> m + 1`. -/
def new_master_fid_code (t : MasterTable) : Except String Int :=
  match selectMaxColumn t "fid" with
  | .error e => .error e
  | .ok none => .ok 1
  | .ok (some m) => .ok (m + 1)

/-- The value the specification claims is supplied:
`max(master_pk(table)) + 1` over the introspected primary-key column, or `1`
if the table is empty.  (Stated from the spec's words, for comparison with
`new_master_fid_code`.) -/
def new_master_fid_spec (t : MasterTable) : Int :=
  match sqlMax (t.rows.filterMap (fun row => row.lookup t.pkey)) with
  | none => 1
  | some m => m + 1

/-- C3 (code bug).  On a table whose primary-key column is `objectid` (and
which, like the repository's `farms_without_fid.gpkg` fixture, has no `fid`
column), the orchestrator's computation fails with a SQL error instead of
producing `max(objectid) + 1 = 6`; the two agree only when the primary-key
column is literally named `fid`. -/
theorem new_master_fid_uses_literal_fid_column :
    new_master_fid_code ⟨["objectid", "owner"], "objectid", [[("objectid", 5)]]⟩
        = .error "no such column: fid"
    ∧ new_master_fid_spec ⟨["objectid", "owner"], "objectid", [[("objectid", 5)]]⟩
        = 6
    ∧ new_master_fid_code ⟨["fid", "owner"], "fid", [[("fid", 9)]]⟩ = .ok 10
    ∧ new_master_fid_spec ⟨["fid", "owner"], "fid", [[("fid", 9)]]⟩ = 10 := by
  refine ⟨rfl, rfl, rfl, rfl⟩

/-! ## C7: the Schema Introspector (`remapping._table_pkey`) -/

/-- One row of `pragma table_info(...)` as `_table_pkey` reads it: the
column name (`row[1]`) and the primary-key flag (`row[5]`, `0` when the
column is not part of the primary key). -/
abbrev TableInfoRow := String × Nat

/-- The scanning loop of `remapping._table_pkey` (lines 37-44), carrying the
`pkey_column_name` accumulator. -/
def table_pkey_loop (tbl : String) :
    Option String → List TableInfoRow → Except String (Option String)
  | acc, [] => .ok acc
  | acc, (nm, flag) :: rest =>
    if flag ≠ 0 then
      match acc with
      | none => table_pkey_loop tbl (some nm) rest
      | some _ =>
        .error ("table " ++ tbl ++ " has multi-column primary key")
    else table_pkey_loop tbl acc rest

/-- Embedding of `remapping._table_pkey`: scans the table metadata, returns
the name of the flagged primary-key column (`none` when no column is
flagged), and raises only when a second flagged column is encountered. -/
def table_pkey (tbl : String) (info : List TableInfoRow) :
    Except String (Option String) :=
  table_pkey_loop tbl none info

/-- C7 counterexample.  On a table none of whose columns is flagged as
primary key, `_table_pkey` does not fail: it returns `None` (the claimed
`UnsupportedSchema` failure does not occur). -/
theorem table_pkey_zero_flagged_counterexample :
    table_pkey "t" [("a", 0), ("b", 0)] = .ok none := by rfl

theorem table_pkey_loop_no_flag (tbl : String) : ∀ (info : List TableInfoRow)
    (acc : Option String), (∀ p ∈ info, p.2 = 0) →
    table_pkey_loop tbl acc info = .ok acc
  | [], acc, _ => rfl
  | (nm, flag) :: rest, acc, h => by
    have hf : flag = 0 := h (nm, flag) (List.mem_cons_self _ _)
    subst hf
    simp only [table_pkey_loop, ne_eq, not_true_eq_false, if_neg,
      not_false_eq_true, reduceIte]
    exact table_pkey_loop_no_flag tbl rest acc
      (fun p hp => h p (List.mem_cons_of_mem _ hp))

theorem table_pkey_loop_second_flag (tbl : String) :
    ∀ (info : List TableInfoRow) (s : String),
    (∃ p ∈ info, p.2 ≠ 0) →
    table_pkey_loop tbl (some s) info
      = .error ("table " ++ tbl ++ " has multi-column primary key")
  | [], s, h => by
    obtain ⟨p, hp, -⟩ := h
    cases hp
  | (nm, flag) :: rest, s, h => by
    by_cases hf : flag = 0
    · subst hf
      simp only [table_pkey_loop, ne_eq, not_true_eq_false, if_neg,
        not_false_eq_true, reduceIte]
      refine table_pkey_loop_second_flag tbl rest s ?_
      obtain ⟨p, hp, hpf⟩ := h
      rcases List.mem_cons.mp hp with hp | hp
      · subst hp; simp at hpf
      · exact ⟨p, hp, hpf⟩
    · simp [table_pkey_loop, hf]

/-- C7 (amended).  `_table_pkey` returns the single flagged column when
exactly one column is flagged as primary key, fails (spec name
`UnsupportedSchema`) when two or more columns are flagged, and returns
`None` without failing when no column is flagged. -/
theorem table_pkey_cases (tbl : String) (info : List TableInfoRow) :
    (info.filter (fun p => decide (p.2 ≠ 0)) = [] →
      table_pkey tbl info = .ok none)
    ∧ (∀ nm flag, info.filter (fun p => decide (p.2 ≠ 0)) = [(nm, flag)] →
      table_pkey tbl info = .ok (some nm))
    ∧ (2 ≤ (info.filter (fun p => decide (p.2 ≠ 0))).length →
      table_pkey tbl info
        = .error ("table " ++ tbl ++ " has multi-column primary key")) := by
  refine ⟨?_, ?_, ?_⟩
  · intro h
    refine table_pkey_loop_no_flag tbl info none ?_
    intro p hp
    by_contra hne
    have : p ∈ info.filter (fun p => decide (p.2 ≠ 0)) :=
      List.mem_filter.mpr ⟨hp, by simpa using hne⟩
    rw [h] at this
    cases this
  · intro nm flag hone
    unfold table_pkey
    induction info with
    | nil => cases hone
    | cons q rest ih =>
      obtain ⟨qn, qf⟩ := q
      by_cases hqf : qf = 0
      · subst hqf
        rw [List.filter_cons_of_neg (by simp)] at hone
        simp only [table_pkey_loop, ne_eq, not_true_eq_false, if_neg,
          not_false_eq_true, reduceIte]
        exact ih hone
      · rw [List.filter_cons_of_pos (by simpa using hqf)] at hone
        injection hone with h1 h2
        injection h1 with hqn hqflag
        subst hqn
        simp only [table_pkey_loop, ne_eq, hqf, not_false_eq_true, reduceIte]
        refine table_pkey_loop_no_flag tbl rest (some qn) ?_
        intro p hp
        by_contra hne
        have : p ∈ rest.filter (fun p => decide (p.2 ≠ 0)) :=
          List.mem_filter.mpr ⟨hp, by simpa using hne⟩
        rw [h2] at this
        cases this
  · intro h2
    unfold table_pkey
    induction info with
    | nil => simp at h2
    | cons q rest ih =>
      obtain ⟨qn, qf⟩ := q
      by_cases hqf : qf = 0
      · subst hqf
        rw [List.filter_cons_of_neg (by simp)] at h2
        simp only [table_pkey_loop, ne_eq, not_true_eq_false, if_neg,
          not_false_eq_true, reduceIte]
        exact ih h2
      · rw [List.filter_cons_of_pos (by simpa using hqf)] at h2
        simp only [List.length_cons] at h2
        simp only [table_pkey_loop, ne_eq, hqf, not_false_eq_true, reduceIte]
        refine table_pkey_loop_second_flag tbl rest qn ?_
        have hlen : 1 ≤ (rest.filter (fun p => decide (p.2 ≠ 0))).length := by
          omega
        obtain ⟨p, hp⟩ := List.exists_mem_of_length_pos hlen
        have := List.mem_filter.mp hp
        exact ⟨p, this.1, by simpa using this.2⟩

/-- Witness for C7 (amended): on `trees(fid PRIMARY KEY, owner)` the
introspector reports `fid`. -/
theorem table_pkey_cases_witness :
    table_pkey "trees" [("fid", 1), ("owner", 0)] = .ok (some "fid") :=
  (table_pkey_cases "trees" [("fid", 1), ("owner", 0)]).2.1 "fid" 1 (by rfl)

/-! ## C6: the Config Loader (`wp.load_config_from_yaml`)

`yaml.safe_load` either fails (modelled as input `none`) or produces a YAML
value; the loader then subscripts required keys (Python `[]`, raising
`KeyError`/`TypeError` on absence or wrong shape — the spec's `ConfigError`)
and reads `filter-column-name` with `.get`, which never fails.
-/

/-- A parsed YAML value as `yaml.safe_load` yields it: string and integer
scalars, sequences and mappings (other scalar kinds play no role in the
loader's control flow). -/
inductive YVal where
  | s (v : String)
  | i (v : Int)
  | list (items : List YVal)
  | dict (entries : List (String × YVal))

/-- Python subscript `y[k]`: `KeyError` when the mapping lacks the key,
`TypeError` when the value is not a mapping. -/
def ySub (y : YVal) (k : String) : Except String YVal :=
  match y with
  | .dict es =>
    match es.lookup k with
    | some v => .ok v
    | none => .error ("KeyError: " ++ k)
  | _ => .error ("TypeError: value is not subscriptable by " ++ k)

/-- Python `y.get(k)` (only reached on values already subscripted
successfully, hence mappings): `none` when the key is absent. -/
def yGet (y : YVal) (k : String) : Option YVal :=
  match y with
  | .dict es => es.lookup k
  | _ => none

/-- Python iteration `for x in y`: sequences yield their items, mappings
their keys, strings their characters; integers are not iterable. -/
def yIter (y : YVal) : Except String (List YVal) :=
  match y with
  | .list items => .ok items
  | .dict es => .ok (es.map (fun p => .s p.1))
  | .s v => .ok (v.data.map (fun c => .s (String.singleton c)))
  | .i _ => .error "TypeError: int object is not iterable"

/-- `wp.WPName`: one `work-packages` entry, fields kept as the raw YAML
values exactly as the Python constructor stores them. -/
structure WPName where
  name : YVal
  value : YVal
  mergin_project : YVal

/-- `wp.WPTable`: one `tables` entry; `filter_column_name` comes from
`table_yaml.get("filter-column-name")` and may be absent. -/
structure WPTable where
  name : YVal
  filter_method : YVal
  filter_column_name : Option YVal

/-- `wp.WPConfig`. -/
structure WPConfig where
  master_gpkg : YVal
  wp_names : List WPName
  wp_tables : List WPTable

/-- Loading of one `work-packages` entry (wp.py line 95): the three
subscripts, in program order. -/
def load_wp_name (y : YVal) : Except String WPName :=
  match ySub y "name" with
  | .error e => .error e
  | .ok n =>
    match ySub y "value" with
    | .error e => .error e
    | .ok v =>
      match ySub y "mergin-project" with
      | .error e => .error e
      | .ok mp => .ok ⟨n, v, mp⟩

/-- Loading of one `tables` entry (wp.py line 97): two required subscripts,
then the optional `.get("filter-column-name")` — no method/filter-column
consistency check of any kind. -/
def load_wp_table (y : YVal) : Except String WPTable :=
  match ySub y "name" with
  | .error e => .error e
  | .ok n =>
    match ySub y "method" with
    | .error e => .error e
    | .ok m => .ok ⟨n, m, yGet y "filter-column-name"⟩

/-- The `work-packages` loop of `load_config_from_yaml`, appending loaded
entries in document order; the first failing entry aborts. -/
def load_wp_names : List YVal → Except String (List WPName)
  | [] => .ok []
  | y :: rest =>
    match load_wp_name y with
    | .error e => .error e
    | .ok w =>
      match load_wp_names rest with
      | .error e => .error e
      | .ok ws => .ok (w :: ws)

/-- The `tables` loop of `load_config_from_yaml`. -/
def load_wp_tables : List YVal → Except String (List WPTable)
  | [] => .ok []
  | y :: rest =>
    match load_wp_table y with
    | .error e => .error e
    | .ok t =>
      match load_wp_tables rest with
      | .error e => .error e
      | .ok ts => .ok (t :: ts)

/-- Embedding of `wp.load_config_from_yaml` (wp.py lines 81-99) on the
parse result (`none` = YAML parse failure). -/
def load_config_from_yaml (doc : Option YVal) : Except String WPConfig :=
  match doc with
  | none => .error "Unable to parse config YAML"
  | some root =>
    match ySub root "file" with
    | .error e => .error e
    | .ok master =>
      match ySub root "work-packages" with
      | .error e => .error e
      | .ok wpsY =>
        match yIter wpsY with
        | .error e => .error e
        | .ok wpItems =>
          match load_wp_names wpItems with
          | .error e => .error e
          | .ok wps =>
            match ySub root "tables" with
            | .error e => .error e
            | .ok tsY =>
              match yIter tsY with
              | .error e => .error e
              | .ok tItems =>
                match load_wp_tables tItems with
                | .error e => .error e
                | .ok ts => .ok ⟨master, wps, ts⟩

/-- Shape of a `work-packages` entry on which loading succeeds: a mapping
with the three required keys. -/
def wp_name_entry_ok (y : YVal) : Bool :=
  match y with
  | .dict es =>
    ((es.lookup "name").isSome && (es.lookup "value").isSome)
      && (es.lookup "mergin-project").isSome
  | _ => false

/-- Shape of a `tables` entry on which loading succeeds: a mapping with the
two required keys (`filter-column-name` is optional regardless of method). -/
def wp_table_entry_ok (y : YVal) : Bool :=
  match y with
  | .dict es => (es.lookup "name").isSome && (es.lookup "method").isSome
  | _ => false

/-- Shape of a whole document on which loading succeeds: a mapping holding
`file`, an iterable `work-packages` whose entries are all well-shaped, and
an iterable `tables` whose entries are all well-shaped. -/
def config_doc_ok (root : YVal) : Bool :=
  match root with
  | .dict es =>
    ((es.lookup "file").isSome
      && (match es.lookup "work-packages" with
          | none => false
          | some wpsY =>
            match yIter wpsY with
            | .error _ => false
            | .ok items => items.all wp_name_entry_ok))
      && (match es.lookup "tables" with
          | none => false
          | some tsY =>
            match yIter tsY with
            | .error _ => false
            | .ok items => items.all wp_table_entry_ok)
  | _ => false

/-- C6 counterexample.  A document whose only table names method
`filter-column` but supplies no `filter-column-name` — a method/filter_column
mismatch — is NOT rejected: loading succeeds, storing `none` for the filter
column. -/
theorem config_mismatch_not_rejected :
    load_config_from_yaml (some (.dict
      [("file", .s "farms.gpkg"),
       ("work-packages", .list []),
       ("tables", .list
          [.dict [("name", .s "farms"), ("method", .s "filter-column")]])]))
      = .ok ⟨.s "farms.gpkg", [],
          [⟨.s "farms", .s "filter-column", none⟩]⟩ := by
  rfl

theorem load_wp_name_isOk (y : YVal) :
    (load_wp_name y).isOk = wp_name_entry_ok y := by
  cases y with
  | dict es =>
    simp only [load_wp_name, ySub, wp_name_entry_ok]
    cases es.lookup "name" <;> cases es.lookup "value" <;>
      cases es.lookup "mergin-project" <;> rfl
  | s v => rfl
  | i v => rfl
  | list items => rfl

theorem load_wp_table_isOk (y : YVal) :
    (load_wp_table y).isOk = wp_table_entry_ok y := by
  cases y with
  | dict es =>
    simp only [load_wp_table, ySub, wp_table_entry_ok]
    cases es.lookup "name" <;> cases es.lookup "method" <;> rfl
  | s v => rfl
  | i v => rfl
  | list items => rfl

theorem load_wp_names_isOk : ∀ (items : List YVal),
    (load_wp_names items).isOk = items.all wp_name_entry_ok
  | [] => rfl
  | y :: rest => by
    simp only [load_wp_names, List.all_cons]
    rw [← load_wp_name_isOk, ← load_wp_names_isOk rest]
    cases load_wp_name y with
    | error e => rfl
    | ok w =>
      cases load_wp_names rest with
      | error e => rfl
      | ok ws => rfl

theorem load_wp_tables_isOk : ∀ (items : List YVal),
    (load_wp_tables items).isOk = items.all wp_table_entry_ok
  | [] => rfl
  | y :: rest => by
    simp only [load_wp_tables, List.all_cons]
    rw [← load_wp_table_isOk, ← load_wp_tables_isOk rest]
    cases load_wp_table y with
    | error e => rfl
    | ok t =>
      cases load_wp_tables rest with
      | error e => rfl
      | ok ts => rfl

theorem load_wp_names_order : ∀ (items : List YVal) (ws : List WPName),
    load_wp_names items = .ok ws →
    ws.length = items.length ∧
    ∀ i (hi : i < items.length) (hw : i < ws.length),
      load_wp_name (items.get ⟨i, hi⟩) = .ok (ws.get ⟨i, hw⟩)
  | [], ws, h => by
    simp only [load_wp_names] at h
    injection h with h
    subst h
    exact ⟨rfl, fun i hi _ => by simp at hi⟩
  | y :: rest, ws, h => by
    simp only [load_wp_names] at h
    split at h
    · cases h
    · rename_i w hw
      split at h
      · cases h
      · rename_i ws2 hws
        injection h with h
        subst h
        obtain ⟨hlen, hpt⟩ := load_wp_names_order rest ws2 hws
        refine ⟨by simp [hlen], ?_⟩
        intro i hi hw2
        cases i with
        | zero => simpa using hw
        | succ j =>
          have hj : j < rest.length := by simpa using hi
          have hj2 : j < ws2.length := by simpa using hw2
          simpa using hpt j hj hj2

theorem load_wp_tables_order : ∀ (items : List YVal) (ts : List WPTable),
    load_wp_tables items = .ok ts →
    ts.length = items.length ∧
    ∀ i (hi : i < items.length) (hw : i < ts.length),
      load_wp_table (items.get ⟨i, hi⟩) = .ok (ts.get ⟨i, hw⟩)
  | [], ts, h => by
    simp only [load_wp_tables] at h
    injection h with h
    subst h
    exact ⟨rfl, fun i hi _ => by simp at hi⟩
  | y :: rest, ts, h => by
    simp only [load_wp_tables] at h
    split at h
    · cases h
    · rename_i t ht
      split at h
      · cases h
      · rename_i ts2 hts
        injection h with h
        subst h
        obtain ⟨hlen, hpt⟩ := load_wp_tables_order rest ts2 hts
        refine ⟨by simp [hlen], ?_⟩
        intro i hi hw2
        cases i with
        | zero => simpa using ht
        | succ j =>
          have hj : j < rest.length := by simpa using hi
          have hj2 : j < ts2.length := by simpa using hw2
          simpa using hpt j hj hj2

/-- C6 (amended).  `load_config_from_yaml` fails exactly on a YAML parse
failure or a missing required field (top-level `file` / `work-packages` /
`tables`, an entry's `name`/`value`/`mergin-project`, or a table entry's
`name`/`method`); no method/filter_column consistency is checked
(`filter-column-name` is optional regardless of method).  On success the
work-packages and tables entries are loaded in document order, the i-th
output entry coming from the i-th document entry. -/
theorem load_config_failure_and_order :
    load_config_from_yaml none = .error "Unable to parse config YAML"
    ∧ (∀ root, (load_config_from_yaml (some root)).isOk = config_doc_ok root)
    ∧ (∀ (items : List YVal) (ws : List WPName),
        load_wp_names items = .ok ws →
        ws.length = items.length ∧
        ∀ i (hi : i < items.length) (hw : i < ws.length),
          load_wp_name (items.get ⟨i, hi⟩) = .ok (ws.get ⟨i, hw⟩))
    ∧ (∀ (items : List YVal) (ts : List WPTable),
        load_wp_tables items = .ok ts →
        ts.length = items.length ∧
        ∀ i (hi : i < items.length) (hw : i < ts.length),
          load_wp_table (items.get ⟨i, hi⟩) = .ok (ts.get ⟨i, hw⟩)) := by
  refine ⟨rfl, ?_, load_wp_names_order, load_wp_tables_order⟩
  intro root
  cases root with
  | s v => rfl
  | i v => rfl
  | list items => rfl
  | dict es =>
    simp only [load_config_from_yaml, ySub, config_doc_ok]
    cases hf : es.lookup "file" with
    | none => rfl
    | some fv =>
      cases hw : es.lookup "work-packages" with
      | none => rfl
      | some wpsY =>
        cases hit : yIter wpsY with
        | error e => simp [hit, Except.isOk, Except.toBool]
        | ok wpItems =>
          cases hl : load_wp_names wpItems with
          | error e =>
            have hall := load_wp_names_isOk wpItems
            rw [hl] at hall
            simp [hit, hl, Except.isOk, Except.toBool, ← hall]
          | ok wps =>
            have hall := load_wp_names_isOk wpItems
            rw [hl] at hall
            cases ht : es.lookup "tables" with
            | none => simp [hit, hl, ht, Except.isOk, Except.toBool]
            | some tsY =>
              cases hit2 : yIter tsY with
              | error e =>
                simp [hit, hl, ht, hit2, Except.isOk, Except.toBool, ← hall]
              | ok tItems =>
                cases hl2 : load_wp_tables tItems with
                | error e =>
                  have hall2 := load_wp_tables_isOk tItems
                  rw [hl2] at hall2
                  simp [hit, hl, ht, hit2, hl2, Except.isOk, Except.toBool,
                    ← hall, ← hall2]
                | ok ts =>
                  have hall2 := load_wp_tables_isOk tItems
                  rw [hl2] at hall2
                  simp [hit, hl, ht, hit2, hl2, Except.isOk, Except.toBool,
                    ← hall, ← hall2]

/-- Witness for C6 (amended): a one-entry `work-packages` document section
loads to a one-entry list, in document order. -/
theorem load_config_failure_and_order_witness :
    ([(⟨.s "Kyle", .s "Kyle Flynn", .s "ws/kyle"⟩ : WPName)]).length
      = ([YVal.dict [("name", .s "Kyle"), ("value", .s "Kyle Flynn"),
          ("mergin-project", .s "ws/kyle")]]).length :=
  (load_config_failure_and_order.2.2.1
    [YVal.dict [("name", .s "Kyle"), ("value", .s "Kyle Flynn"),
      ("mergin-project", .s "ws/kyle")]]
    [⟨.s "Kyle", .s "Kyle Flynn", .s "ws/kyle"⟩] (by rfl)).1

/-! ## Filter Executor (`make_work_packages`, Stage 2, wp.py lines 299-321)

SQL `DELETE FROM t WHERE pred` under three-valued logic: a row is deleted
exactly when the predicate evaluates to true; rows where it evaluates to
false or to `NULL` (`none`) survive, keeping their order.
-/

/-- `DELETE FROM t WHERE pred` on a list of rows. -/
def sql_delete_where {ρ : Type} (rows : List ρ) (pred : ρ → Option Bool) :
    List ρ :=
  rows.filter (fun row => decide (pred row ≠ some true))

/-- The shapes of a work package's `value` for the `filter-column` method
(the `isinstance` dispatch at wp.py lines 310-317): a scalar or a list of
scalars.  Scalar values are opaque here (any type with decidable equality,
covering the str/int/float cases). -/
inductive FilterVal (α : Type) where
  | scalar (v : α)
  | values (vs : List α)

/-- The `filter-column` branch of the Filter Executor on one table: first
`DELETE ... WHERE column IS NULL`, then either
`DELETE ... WHERE column != ?` (scalar) or
`DELETE ... WHERE column NOT IN (?, ..., ?)` (list).  A row is a pair of its
filter-column value (`none` = SQL `NULL`) and the rest of its fields. -/
def filter_column_run {α β : Type} [DecidableEq α]
    (rows : List (Option α × β)) (value : FilterVal α) :
    List (Option α × β) :=
  let afterNull := sql_delete_where rows (fun row => some row.1.isNone)
  match value with
  | .scalar v =>
    sql_delete_where afterNull (fun row => row.1.map (fun c => decide (c ≠ v)))
  | .values vs =>
    sql_delete_where afterNull (fun row => row.1.map (fun c => decide (c ∉ vs)))

/-- The `",".join(["?"] * n)` placeholder list of the `NOT IN` statement. -/
def placeholders (n : Nat) : String :=
  String.intercalate "," (List.replicate n "?")

/-- The SQL statements issued by the `filter-column` branch, each paired
with its bound parameters: the statement text interpolates only the escaped
table and column identifiers and `?` placeholders, while the filter values
travel as parameters. -/
def filter_column_stmts {α : Type} (tbl col : String) (value : FilterVal α) :
    List (String × List α) :=
  let tq := escape_double_quotes tbl
  let cq := escape_double_quotes col
  ("delete from " ++ tq ++ " where " ++ cq ++ " IS NULL", []) ::
    (match value with
     | .scalar v =>
       [("delete from " ++ tq ++ " where " ++ cq ++ " != ?", [v])]
     | .values vs =>
       [("delete from " ++ tq ++ " where " ++ cq ++ " not in ("
           ++ placeholders vs.length ++ ")", vs)])

/-- C8.  For a table filtered with method `filter-column`: with a scalar
value `v` exactly the rows whose filter column equals `v` remain (rows whose
column is NULL are dropped); with a list value exactly the rows whose column
is among the listed values remain (NULL rows dropped); and the statement
texts are independent of the scalar values (for the list case they depend
only on the number of values), the values travelling as bound parameters. -/
theorem filter_column_correct {α β : Type} [DecidableEq α] :
    (∀ (rows : List (Option α × β)) (v : α),
      filter_column_run rows (.scalar v)
        = rows.filter (fun row => decide (row.1 = some v)))
    ∧ (∀ (rows : List (Option α × β)) (vs : List α),
      filter_column_run rows (.values vs)
        = rows.filter (fun row => decide (row.1 ∈ vs.map some)))
    ∧ (∀ (tbl col : String) (v w : α),
      (filter_column_stmts tbl col (.scalar v)).map Prod.fst
        = (filter_column_stmts tbl col (.scalar w)).map Prod.fst)
    ∧ (∀ (tbl col : String) (vs ws : List α), vs.length = ws.length →
      (filter_column_stmts tbl col (.values vs)).map Prod.fst
        = (filter_column_stmts tbl col (.values ws)).map Prod.fst)
    ∧ (∀ (tbl col : String) (v : α),
      (filter_column_stmts tbl col (.scalar v)).map Prod.snd = [[], [v]])
    ∧ (∀ (tbl col : String) (vs : List α),
      (filter_column_stmts tbl col (.values vs)).map Prod.snd = [[], vs]) := by
  refine ⟨?_, ?_, ?_, ?_, ?_, ?_⟩
  · intro rows v
    simp only [filter_column_run, sql_delete_where, List.filter_filter]
    refine List.filter_congr ?_
    intro row _
    rcases row with ⟨c, rest⟩
    cases c with
    | none => simp
    | some c => by_cases hc : c = v <;> simp [hc]
  · intro rows vs
    simp only [filter_column_run, sql_delete_where, List.filter_filter]
    refine List.filter_congr ?_
    intro row _
    rcases row with ⟨c, rest⟩
    cases c with
    | none => simp
    | some c => by_cases hc : c ∈ vs <;> simp [hc]
  · intro tbl col v w
    rfl
  · intro tbl col vs ws hlen
    simp [filter_column_stmts, hlen]
  · intro tbl col v
    rfl
  · intro tbl col vs
    rfl

/-- Witness for C8: evaluating the executor on a concrete table (column
values 1, NULL, 2, 1) with scalar value 1 keeps exactly the two rows whose
column equals 1, and the two statement texts are the same as for scalar
value 2. -/
theorem filter_column_correct_witness :
    filter_column_run [(some 1, "r1"), (none, "r2"), (some 2, "r3"),
        (some 1, "r4")] (FilterVal.scalar (1 : Int))
      = [(some 1, "r1"), (some 1, "r4")]
    ∧ (filter_column_stmts "farms" "owner" (FilterVal.scalar (1 : Int))).map
        Prod.fst
      = (filter_column_stmts "farms" "owner" (FilterVal.scalar (2 : Int))).map
        Prod.fst
    ∧ (filter_column_stmts "farms" "owner" (FilterVal.values
          ([3, 4] : List Int))).map Prod.fst
      = (filter_column_stmts "farms" "owner" (FilterVal.values
          ([5, 6] : List Int))).map Prod.fst := by
  refine ⟨?_, ?_, ?_⟩
  · have h := (@filter_column_correct Int String _).1
      [(some 1, "r1"), (none, "r2"), (some 2, "r3"), (some 1, "r4")] 1
    rw [h]
    rfl
  · exact (@filter_column_correct Int String _).2.2.1 "farms" "owner" 1 2
  · exact (@filter_column_correct Int String _).2.2.2.1 "farms" "owner"
      [3, 4] [5, 6] (by rfl)

/-! ## C10: the `filter-geometry` method and NULL geometries

The geometry branch (wp.py lines 303-305) runs
`delete from t where not ST_Intersects(GeomFromGPB(geometry),
ST_GeomFromText('wkt'))`.  `GeomFromGPB(NULL)` is `NULL`, `ST_Intersects`
returns `NULL` when either argument is `NULL`, and `NOT NULL` is `NULL`,
which is not true — so the row is not deleted.
-/

/-- Spatialite `ST_Intersects` under three-valued logic, parameterised by
the boolean intersection test on non-NULL geometries. -/
def st_intersects3 {H : Type} (intersects : H → H → Bool)
    (a b : Option H) : Option Bool :=
  match a, b with
  | some x, some y => some (intersects x y)
  | _, _ => none

/-- SQL `NOT` under three-valued logic. -/
def sql_not3 : Option Bool → Option Bool :=
  Option.map (fun b => !b)

/-- The `filter-geometry` branch of the Filter Executor on one table: a row
is a pair of its geometry column (`none` = NULL, otherwise a GeoPackage
blob) and the rest of its fields.  `decodeGPB` models `GeomFromGPB` on
non-NULL blobs, `st_geom_from_text` models `ST_GeomFromText` on the
(interpolated) WKT literal; either may yield NULL. -/
def filter_geometry_run {G H β : Type} (decodeGPB : G → Option H)
    (st_geom_from_text : String → Option H) (intersects : H → H → Bool)
    (wkt : String) (rows : List (Option G × β)) : List (Option G × β) :=
  sql_delete_where rows (fun row =>
    sql_not3 (st_intersects3 intersects (row.1.bind decodeGPB)
      (st_geom_from_text wkt)))

/-- C10.  Under `filter-geometry`, every row whose geometry is NULL survives
the filter regardless of the WKT value: the delete predicate
`NOT ST_Intersects(...)` evaluates to NULL (not true) on a NULL geometry, so
the row is retained in every generated work package. -/
theorem filter_geometry_keeps_null_geometry {G H β : Type}
    (decodeGPB : G → Option H) (st_geom_from_text : String → Option H)
    (intersects : H → H → Bool) (wkt : String) :
    (∀ (rows : List (Option G × β)), ∀ row ∈ rows, row.1 = none →
      row ∈ filter_geometry_run decodeGPB st_geom_from_text intersects wkt
        rows)
    ∧ (∀ b : Option H, sql_not3 (st_intersects3 intersects none b) = none) := by
  constructor
  · intro rows row hrow hnull
    unfold filter_geometry_run sql_delete_where
    refine List.mem_filter.mpr ⟨hrow, ?_⟩
    simp only [hnull, Option.none_bind]
    cases st_geom_from_text wkt <;> simp [st_intersects3, sql_not3]
  · intro b
    cases b <;> rfl

/-- Witness for C10: a concrete two-row table (one NULL geometry, one
non-intersecting geometry) retains its NULL-geometry row. -/
theorem filter_geometry_keeps_null_geometry_witness :
    ((none, "r1") : Option Unit × String)
      ∈ filter_geometry_run (fun _ => some ()) (fun _ => some ())
          (fun _ _ => false) "POLYGON((0 0,1 0,1 1,0 1,0 0))"
          [(none, "r1"), (some (), "r2")] :=
  (filter_geometry_keeps_null_geometry (fun _ => some ()) (fun _ => some ())
      (fun _ _ => false) "POLYGON((0 0,1 0,1 1,0 1,0 0))").1
    [(none, "r1"), (some (), "r2")] (none, "r1") (by simp) rfl
